import Mathlib

/-!
Verification of the free-slot computation and greedy task-packing core of
`time_coach.py` (an AI time-management coach).

Modelling conventions:
* Timestamps are integers (minutes).  Intervals `(start, end)` are half-open
  `[start, end)` sets of integer points.
* A calendar event carries optional `dateTime` values for its start and end
  (`none` models a missing `dateTime`, e.g. an all-day event that only has a
  `date`).  Timezone parsing is not modelled: the option holds the already
  parsed timestamp.
* Python dictionaries mutated in place are modelled by a task list updated
  positionally with `List.set`; the list index plays the role of object
  identity.  Python's stable `sort` is modelled by `List.insertionSort`,
  which is also stable.
-/

namespace TimeCoach

/-- A task record, with the fields of the dictionaries built by `add_task`. -/
structure Task where
  title : String
  priority : Int
  duration : Int
  category : String
  scheduled : Bool
  start_time : Option Int
  end_time : Option Int
  completed : Bool
deriving Repr, DecidableEq

/-- A calendar event: the parsed `start.dateTime` / `end.dateTime` values,
`none` when the corresponding `dateTime` key is absent.  `stop` stands for the
source's `end` field (a Lean keyword). -/
structure Event where
  start : Option Int
  stop : Option Int
deriving Repr, DecidableEq

/-- The busy pairs extracted in the first loop of `find_free_slots`: events
whose start and end both carry a `dateTime` value; others are skipped. -/
def busyOf (events : List Event) : List (Int × Int) :=
  events.filterMap fun ev =>
    match ev.start, ev.stop with
    | some s, some e => some (s, e)
    | _, _ => none

/-- Lexicographic order on busy pairs: Python's `busy_slots.sort()` on
tuples.  Python's sort is stable, as is `List.insertionSort`. -/
def pairLE (a b : Int × Int) : Prop :=
  a.1 < b.1 ∨ (a.1 = b.1 ∧ a.2 ≤ b.2)

instance : DecidableRel pairLE := fun a b => by unfold pairLE; infer_instance

instance : IsTotal (Int × Int) pairLE :=
  ⟨by intro a b; unfold pairLE; omega⟩

instance : IsTrans (Int × Int) pairLE :=
  ⟨by intro a b c; unfold pairLE; omega⟩

/-- `busy_slots.sort()`. -/
def sortBusy (busy : List (Int × Int)) : List (Int × Int) :=
  busy.insertionSort pairLE

/-- The cursor sweep of `find_free_slots`: the loop over the sorted busy
pairs followed by the final `if current < day_end` emission. -/
def sweep (cur : Int) (busy : List (Int × Int)) (day_end : Int) :
    List (Int × Int) :=
  match busy with
  | [] => if cur < day_end then [(cur, day_end)] else []
  | (s, e) :: rest =>
      (if cur < s then [(cur, s)] else []) ++ sweep (max cur e) rest day_end

/-- `find_free_slots(events, day_start, day_end)`. -/
def find_free_slots (events : List Event) (day_start day_end : Int) :
    List (Int × Int) :=
  sweep day_start (sortBusy (busyOf events)) day_end

/-- Width-descending comparison used by
`free_slots.sort(key=lambda slot: slot[1]-slot[0], reverse=True)`;
a stable sort with this relation keeps the original order of equal widths,
as Python's `reverse=True` does. -/
def widthGE (a b : Int × Int) : Prop :=
  b.2 - b.1 ≤ a.2 - a.1

instance : DecidableRel widthGE := fun a b => by unfold widthGE; infer_instance

instance : IsTotal (Int × Int) widthGE :=
  ⟨by intro a b; unfold widthGE; omega⟩

instance : IsTrans (Int × Int) widthGE :=
  ⟨by intro a b c; unfold widthGE; omega⟩

/-- The width-descending sort of the free slots in `schedule_tasks`. -/
def sortSlotsDesc (slots : List (Int × Int)) : List (Int × Int) :=
  slots.insertionSort widthGE

/-- The key `(priority, -duration)` of `get_prioritized_tasks`, as an order
on indexed tasks. -/
def taskLE (a b : Nat × Task) : Prop :=
  a.2.priority < b.2.priority ∨
    (a.2.priority = b.2.priority ∧ b.2.duration ≤ a.2.duration)

instance : DecidableRel taskLE := fun a b => by unfold taskLE; infer_instance

instance : IsTotal (Nat × Task) taskLE :=
  ⟨by intro a b; unfold taskLE; omega⟩

instance : IsTrans (Nat × Task) taskLE :=
  ⟨by intro a b c; unfold taskLE; omega⟩

/-- `get_prioritized_tasks()`: the non-completed tasks, sorted by priority
ascending then duration descending (indices kept to model dict identity). -/
def get_prioritized_tasks (tasks : List Task) : List Task :=
  ((tasks.enum.filter fun p => !p.2.completed).insertionSort taskLE).map (·.2)

/-- The iteration order of the packing loop, as list indices (Python iterates
over the task dictionaries themselves; indices model that object identity). -/
def prioritizedIdx (tasks : List Task) : List Nat :=
  ((tasks.enum.filter fun p => !p.2.completed).insertionSort taskLE).map (·.1)

/-- The inner slot scan of `schedule_tasks`: the first index `i` (with its
bounds) whose slot is at least `needed` wide. -/
def findSlot (slots : List (Int × Int)) (needed : Int) :
    Option (Nat × Int × Int) :=
  match slots with
  | [] => none
  | (s, e) :: rest =>
      if needed ≤ e - s then some (0, s, e)
      else (findSlot rest needed).map fun r => (r.1 + 1, r.2)

/-- One iteration of the packing loop body for the task at index `i`:
skip if already scheduled, otherwise place it in the first fitting slot,
shrinking or deleting that slot. -/
def packStep (buffer : Int) (st : List Task × List (Int × Int)) (i : Nat) :
    List Task × List (Int × Int) :=
  let (tasks, slots) := st
  match tasks[i]? with
  | none => st
  | some t =>
      if t.scheduled then st
      else
        let needed := t.duration + buffer
        match findSlot slots needed with
        | none => st
        | some (j, s, e) =>
            let t' := { t with scheduled := true, start_time := some s,
                               end_time := some (s + needed) }
            let slots' :=
              if s + needed ≥ e then slots.eraseIdx j
              else slots.set j (s + needed, e)
            (tasks.set i t', slots')

/-- The packing loop of `schedule_tasks` (lines 135–157): sort the free slots
widest first, then place each prioritized task. -/
def pack (tasks : List Task) (free_slots : List (Int × Int)) (buffer : Int) :
    List Task × List (Int × Int) :=
  (prioritizedIdx tasks).foldl (packStep buffer) (tasks, sortSlotsDesc free_slots)

/-- Result of a `schedule_tasks` run; `warned` records whether the
"No calendar events found to schedule around" early return fired. -/
structure ScheduleResult where
  tasks : List Task
  slots : List (Int × Int)
  warned : Bool
deriving Repr, DecidableEq

/-- `schedule_tasks()`: build the day window from the configured hours,
return early (with a warning) when there are no calendar events, otherwise
compute the free slots and run the packing loop. -/
def schedule_tasks (events : List Event) (day_start_hour day_end_hour : Int)
    (buffer : Int) (tasks : List Task) : ScheduleResult :=
  if events.isEmpty then
    { tasks := tasks, slots := [], warned := true }
  else
    let day_start := 60 * day_start_hour
    let day_end := 60 * day_end_hour
    let free_slots := find_free_slots events day_start day_end
    let (tasks', slots') := pack tasks free_slots buffer
    { tasks := tasks', slots := slots', warned := false }

/-- `toggle_task_completion(index)`. -/
def toggle_task_completion (tasks : List Task) (i : Nat) : List Task :=
  match tasks[i]? with
  | none => tasks
  | some t => tasks.set i { t with completed := !t.completed }

/-- Membership of an integer instant in a half-open interval. -/
def memI (x : Int) (p : Int × Int) : Prop := p.1 ≤ x ∧ x < p.2

instance (x : Int) (p : Int × Int) : Decidable (memI x p) := by
  unfold memI; infer_instance

/-- Two half-open intervals share no instant. -/
def Disj (a b : Int × Int) : Prop := ∀ x : Int, ¬(memI x a ∧ memI x b)

/-- Interval inclusion. -/
def Sub (a b : Int × Int) : Prop := ∀ x : Int, memI x a → memI x b

/-- The reserved interval of a task (meaningful when scheduled). -/
def resInt (t : Task) : Int × Int :=
  (t.start_time.getD 0, t.end_time.getD 0)

/-- A concrete unscheduled task used by the concrete test cases. -/
def mkTask (p d : Int) : Task :=
  ⟨"t", p, d, "Work", false, none, none, false⟩

/-- Invariant maintained by the packing loop: slots are non-empty, disjoint
from the busy intervals and pairwise disjoint; every scheduled task's
reserved interval is disjoint from the busy intervals and from every
remaining slot; reserved intervals of scheduled tasks are pairwise
disjoint. -/
def PackInv (busy : List (Int × Int)) (ts : List Task)
    (slots : List (Int × Int)) : Prop :=
  (∀ t ∈ ts, 0 ≤ t.duration) ∧
  (∀ p ∈ slots, p.1 < p.2) ∧
  (∀ p ∈ slots, ∀ b ∈ busy, Disj p b) ∧
  slots.Pairwise Disj ∧
  (∀ t ∈ ts, t.scheduled = true →
    (∀ b ∈ busy, Disj (resInt t) b) ∧ (∀ p ∈ slots, Disj (resInt t) p)) ∧
  ts.Pairwise (fun a b => a.scheduled = true → b.scheduled = true →
    Disj (resInt a) (resInt b))

/-! ### Interval lemmas -/

theorem disj_symm {a b : Int × Int} (h : Disj a b) : Disj b a :=
  fun x hx => h x ⟨hx.2, hx.1⟩

theorem sub_disj_left {a b c : Int × Int} (hs : Sub a b) (hd : Disj b c) :
    Disj a c :=
  fun x hx => hd x ⟨hs x hx.1, hx.2⟩

theorem disj_sub_right {a b c : Int × Int} (hd : Disj a b) (hs : Sub c b) :
    Disj a c :=
  fun x hx => hd x ⟨hx.1, hs x hx.2⟩

theorem sub_shrink {s e needed : Int} (h : 0 ≤ needed) :
    Sub (s + needed, e) (s, e) := by
  intro x hx; unfold memI at *; constructor <;> omega

theorem sub_take {s e needed : Int} (h : needed ≤ e - s) :
    Sub (s, s + needed) (s, e) := by
  intro x hx; unfold memI at *; constructor <;> omega

theorem disj_halves (s m e : Int) : Disj (s, m) (m, e) := by
  intro x hx; unfold memI at hx; omega

theorem disj_of_le {a b : Int × Int} (h : a.2 ≤ b.1) : Disj a b := by
  intro x hx; unfold memI at hx; omega

/-! ### Sweep lemmas -/

theorem sweep_bounds :
    ∀ (busy : List (Int × Int)) (cur de : Int) (p : Int × Int),
      p ∈ sweep cur busy de → cur ≤ p.1 ∧ p.1 < p.2 := by
  intro busy
  induction busy with
  | nil =>
      intro cur de p hp
      unfold sweep at hp
      split at hp
      · simp only [List.mem_singleton] at hp
        subst hp; exact ⟨le_refl _, by assumption⟩
      · simp at hp
  | cons b rest ih =>
      intro cur de p hp
      obtain ⟨s, e⟩ := b
      unfold sweep at hp
      rw [List.mem_append] at hp
      rcases hp with h1 | h2
      · split at h1
        · simp only [List.mem_singleton] at h1
          subst h1; exact ⟨le_refl _, by assumption⟩
        · simp at h1
      · have h := ih (max cur e) de p h2
        exact ⟨le_trans (le_max_left _ _) h.1, h.2⟩

theorem sweep_ordered :
    ∀ (busy : List (Int × Int)) (cur de : Int),
      (∀ b ∈ busy, b.1 ≤ b.2) →
      (sweep cur busy de).Pairwise (fun p q => p.2 ≤ q.1) := by
  intro busy
  induction busy with
  | nil =>
      intro cur de _
      unfold sweep
      split
      · exact List.pairwise_singleton _ _
      · exact List.Pairwise.nil
  | cons b rest ih =>
      intro cur de hb
      obtain ⟨s, e⟩ := b
      have hse : s ≤ e := hb (s, e) (List.mem_cons_self _ _)
      unfold sweep
      rw [List.pairwise_append]
      refine ⟨?_, ih (max cur e) de fun q hq => hb q (List.mem_cons_of_mem _ hq), ?_⟩
      · split
        · exact List.pairwise_singleton _ _
        · exact List.Pairwise.nil
      · intro p hp q hq
        have hq' := sweep_bounds rest (max cur e) de q hq
        split at hp
        · simp only [List.mem_singleton] at hp
          subst hp
          simp only
          calc s ≤ e := hse
            _ ≤ max cur e := le_max_right _ _
            _ ≤ q.1 := hq'.1
        · simp at hp

theorem sweep_disj_busy :
    ∀ (busy : List (Int × Int)) (cur de : Int),
      busy.Pairwise (fun a b => a.1 ≤ b.1) →
      ∀ p ∈ sweep cur busy de, ∀ b ∈ busy, Disj p b := by
  intro busy
  induction busy with
  | nil => intro cur de _ p _ b hb; simp at hb
  | cons hd rest ih =>
      intro cur de hsorted p hp b hb
      obtain ⟨s, e⟩ := hd
      have hhead : ∀ q ∈ rest, s ≤ q.1 := by
        intro q hq
        exact (List.pairwise_cons.mp hsorted).1 q hq
      have htail := (List.pairwise_cons.mp hsorted).2
      unfold sweep at hp
      rw [List.mem_append] at hp
      rcases hp with h1 | h2
      · have hps : p.2 ≤ s := by
          split at h1
          · simp only [List.mem_singleton] at h1; subst h1; exact le_refl _
          · simp at h1
        rcases List.mem_cons.mp hb with hbh | hbt
        · subst hbh; exact disj_of_le hps
        · exact disj_of_le (le_trans hps (hhead b hbt))
      · rcases List.mem_cons.mp hb with hbh | hbt
        · subst hbh
          have hpb := sweep_bounds rest (max cur e) de p h2
          intro x hx
          unfold memI at hx
          have : e ≤ p.1 := le_trans (le_max_right cur e) hpb.1
          omega
        · exact ih (max cur e) de htail p h2 b hbt

theorem sweep_mem :
    ∀ (busy : List (Int × Int)) (cur de : Int),
      busy.Pairwise (fun a b => a.1 ≤ b.1) →
      (∀ b ∈ busy, b.1 ≤ de) →
      ∀ x : Int,
        (∃ p ∈ sweep cur busy de, memI x p) ↔
          (cur ≤ x ∧ x < de ∧ ∀ b ∈ busy, ¬ memI x b) := by
  intro busy
  induction busy with
  | nil =>
      intro cur de _ _ x
      unfold sweep
      split
      · simp only [List.mem_singleton]
        constructor
        · rintro ⟨p, rfl, hm⟩
          exact ⟨hm.1, hm.2, by simp⟩
        · rintro ⟨h1, h2, -⟩
          exact ⟨(cur, de), rfl, h1, h2⟩
      · constructor
        · rintro ⟨p, hp, -⟩; simp at hp
        · rintro ⟨h1, h2, -⟩; omega
  | cons hd rest ih =>
      intro cur de hsorted hde x
      obtain ⟨s, e⟩ := hd
      have hhead : ∀ q ∈ rest, s ≤ q.1 := fun q hq =>
        (List.pairwise_cons.mp hsorted).1 q hq
      have htail := (List.pairwise_cons.mp hsorted).2
      have hsde : s ≤ de := hde (s, e) (List.mem_cons_self _ _)
      have hrestde : ∀ b ∈ rest, b.1 ≤ de := fun b hb =>
        hde b (List.mem_cons_of_mem _ hb)
      have IH := ih (max cur e) de htail hrestde x
      unfold sweep
      constructor
      · rintro ⟨p, hp, hm⟩
        rw [List.mem_append] at hp
        rcases hp with h1 | h2
        · have hxlt : cur ≤ x ∧ x < s := by
            split at h1
            · simp only [List.mem_singleton] at h1; subst h1
              exact ⟨hm.1, hm.2⟩
            · simp at h1
          refine ⟨hxlt.1, lt_of_lt_of_le hxlt.2 hsde, ?_⟩
          intro b hb
          rcases List.mem_cons.mp hb with hbh | hbt
          · subst hbh; intro hmb; exact absurd hmb.1 (by omega)
          · intro hmb
            have := hhead b hbt
            have := hmb.1
            omega
        · have h := IH.mp ⟨p, h2, hm⟩
          refine ⟨le_trans (le_max_left _ _) h.1, h.2.1, ?_⟩
          intro b hb
          rcases List.mem_cons.mp hb with hbh | hbt
          · subst hbh
            have : e ≤ x := le_trans (le_max_right cur e) h.1
            intro hmb; exact absurd hmb.2 (by omega)
          · exact h.2.2 b hbt
      · rintro ⟨h1, h2, h3⟩
        by_cases hxs : x < s
        · have hcs : cur < s := lt_of_le_of_lt h1 hxs
          refine ⟨(cur, s), ?_, h1, hxs⟩
          rw [List.mem_append]
          left
          simp [hcs]
        · have hnb := h3 (s, e) (List.mem_cons_self _ _)
          have hex : e ≤ x := by
            unfold memI at hnb; omega
          have hmax : max cur e ≤ x := max_le h1 hex
          obtain ⟨p, hp, hm⟩ := IH.mpr
            ⟨hmax, h2, fun b hb => h3 b (List.mem_cons_of_mem _ hb)⟩
          exact ⟨p, List.mem_append.mpr (Or.inr hp), hm⟩

/-! ### Facts about `find_free_slots` -/

theorem sortBusy_perm (l : List (Int × Int)) : (sortBusy l).Perm l :=
  List.perm_insertionSort _ _

theorem sortBusy_mem {l : List (Int × Int)} {b : Int × Int} :
    b ∈ sortBusy l ↔ b ∈ l :=
  (sortBusy_perm l).mem_iff

theorem sortBusy_sorted (l : List (Int × Int)) :
    (sortBusy l).Pairwise (fun a b => a.1 ≤ b.1) := by
  have h := List.sorted_insertionSort pairLE l
  exact h.imp fun hab => by unfold pairLE at hab; omega

theorem free_slots_pos (events : List Event) (ds de : Int) :
    ∀ p ∈ find_free_slots events ds de, ds ≤ p.1 ∧ p.1 < p.2 := by
  intro p hp
  exact sweep_bounds _ ds de p hp

theorem free_slots_ordered (events : List Event) (ds de : Int)
    (hse : ∀ b ∈ busyOf events, b.1 ≤ b.2) :
    (find_free_slots events ds de).Pairwise (fun p q => p.2 ≤ q.1) := by
  unfold find_free_slots
  exact sweep_ordered _ ds de fun b hb => hse b (sortBusy_mem.mp hb)

theorem free_slots_disj_busy (events : List Event) (ds de : Int) :
    ∀ p ∈ find_free_slots events ds de, ∀ b ∈ busyOf events, Disj p b := by
  intro p hp b hb
  exact sweep_disj_busy _ ds de (sortBusy_sorted _) p hp b (sortBusy_mem.mpr hb)

theorem free_slots_mem (events : List Event) (ds de : Int)
    (hde : ∀ b ∈ busyOf events, b.1 ≤ de) (x : Int) :
    (∃ p ∈ find_free_slots events ds de, memI x p) ↔
      (ds ≤ x ∧ x < de ∧ ∀ b ∈ busyOf events, ¬ memI x b) := by
  unfold find_free_slots
  rw [sweep_mem _ ds de (sortBusy_sorted _) (fun b hb => hde b (sortBusy_mem.mp hb)) x]
  constructor
  · rintro ⟨h1, h2, h3⟩
    exact ⟨h1, h2, fun b hb => h3 b (sortBusy_mem.mpr hb)⟩
  · rintro ⟨h1, h2, h3⟩
    exact ⟨h1, h2, fun b hb => h3 b (sortBusy_mem.mp hb)⟩

theorem busyOf_filter (events : List Event) :
    busyOf (events.filter fun ev => ev.start.isSome && ev.stop.isSome) =
      busyOf events := by
  induction events with
  | nil => rfl
  | cons ev rest ih =>
      obtain ⟨s, e⟩ := ev
      cases s <;> cases e <;>
        simp [busyOf, List.filter, List.filterMap] at ih ⊢ <;>
        exact ih

/-! ### Claim C1 -/

/-- C1 (counterexample): a busy interval `(20, 30)` lying entirely beyond the
day window `[0, 10]` satisfies the claim's hypotheses (`day_start ≤ day_end`,
`start ≤ end`), yet `find_free_slots` returns the single slot `(0, 20)`:
the instant `15` lies in a returned free slot although it is outside
`[day_start, day_end]`, so the union of the free slots is not
`[day_start, day_end]` minus the busy union. -/
theorem free_slots_union_counterexample :
    ((0:Int) ≤ 10 ∧ ∀ b ∈ busyOf [⟨some 20, some 30⟩], b.1 ≤ b.2) ∧
    find_free_slots [⟨some 20, some 30⟩] 0 10 = [(0, 20)] ∧
    memI 15 (0, 20) ∧ ¬ ((15:Int) < 10) := by decide

/-- C1 (amended): under the additional hypothesis that every busy interval
starts no later than `day_end`, `find_free_slots` returns an ordered sequence
of pairwise-disjoint non-empty intervals whose union (as sets of instants of
half-open intervals) is exactly `[day_start, day_end)` minus the union of the
busy intervals — overlapping or adjacent busy intervals never produce a
spurious free gap — and the result is empty when the busy intervals cover the
whole window. -/
theorem free_slots_union_amended (events : List Event) (ds de : Int)
    (hwin : ds ≤ de)
    (hse : ∀ b ∈ busyOf events, b.1 ≤ b.2)
    (hde : ∀ b ∈ busyOf events, b.1 ≤ de) :
    (∀ x : Int, (∃ p ∈ find_free_slots events ds de, memI x p) ↔
        (ds ≤ x ∧ x < de ∧ ∀ b ∈ busyOf events, ¬ memI x b)) ∧
    (∀ p ∈ find_free_slots events ds de, p.1 < p.2) ∧
    (find_free_slots events ds de).Pairwise (fun p q => p.2 ≤ q.1) ∧
    (find_free_slots events ds de).Pairwise Disj ∧
    ((∀ x : Int, ds ≤ x → x < de → ∃ b ∈ busyOf events, memI x b) →
      find_free_slots events ds de = []) := by
  refine ⟨free_slots_mem events ds de hde,
    fun p hp => (free_slots_pos events ds de p hp).2,
    free_slots_ordered events ds de hse,
    (free_slots_ordered events ds de hse).imp fun h => disj_of_le h,
    ?_⟩
  intro hcov
  cases hfs : find_free_slots events ds de with
  | nil => rfl
  | cons p tl =>
      exfalso
      have hp : p ∈ find_free_slots events ds de := by
        rw [hfs]; exact List.mem_cons_self _ _
      have hpos := free_slots_pos events ds de p hp
      have hx : memI p.1 p := ⟨le_refl _, hpos.2⟩
      have h := (free_slots_mem events ds de hde p.1).mp ⟨p, hp, hx⟩
      obtain ⟨b, hb, hmb⟩ := hcov p.1 h.1 h.2.1
      exact h.2.2 b hb hmb

/-- C1 (witness for the amended theorem), on the spec's overlap-merge
example: busy `(540, 600)` and `(570, 660)` inside the window `(480, 720)`;
the instant `500` is free, and the computed free slots are
`[(480, 540), (660, 720)]`. -/
theorem free_slots_union_witness :
    (((480:Int) ≤ 720 ∧
      (∀ b ∈ busyOf [⟨some 540, some 600⟩, ⟨some 570, some 660⟩], b.1 ≤ b.2) ∧
      (∀ b ∈ busyOf [⟨some 540, some 600⟩, ⟨some 570, some 660⟩], b.1 ≤ 720)) ∧
     find_free_slots [⟨some 540, some 600⟩, ⟨some 570, some 660⟩] 480 720 =
       [(480, 540), (660, 720)]) ∧
    ((∃ p ∈ find_free_slots [⟨some 540, some 600⟩, ⟨some 570, some 660⟩] 480 720,
        memI 500 p) ↔
      ((480:Int) ≤ 500 ∧ (500:Int) < 720 ∧
        ∀ b ∈ busyOf [⟨some 540, some 600⟩, ⟨some 570, some 660⟩], ¬ memI 500 b)) :=
  ⟨⟨⟨by decide, by decide, by decide⟩, by decide⟩,
    (free_slots_union_amended [⟨some 540, some 600⟩, ⟨some 570, some 660⟩]
      480 720 (by decide) (by decide) (by decide)).1 500⟩

/-! ### Claim C9 -/

/-- C9: `find_free_slots` skips events whose start or end lacks a `dateTime`
value: its result on any event list equals its result on the sub-list of
events having both `dateTime` fields, so all-day or malformed entries never
affect the returned free slots. -/
theorem free_slots_skip_missing_dateTime (events : List Event)
    (ds de : Int) :
    find_free_slots events ds de =
      find_free_slots (events.filter fun ev => ev.start.isSome && ev.stop.isSome)
        ds de := by
  unfold find_free_slots
  rw [busyOf_filter]

/-! ### Claim C10 -/

/-- C10: given `day_start ≤ day_end` and busy intervals with `start ≤ end`,
every returned free slot `(s, e)` satisfies `s < e`, and the slots are in
increasing order, each ending no later than the next starts (which, with
`s < e`, makes the sequence strictly increasing). -/
theorem free_slots_wellformed (events : List Event) (ds de : Int)
    (hwin : ds ≤ de) (hse : ∀ b ∈ busyOf events, b.1 ≤ b.2) :
    (∀ p ∈ find_free_slots events ds de, p.1 < p.2) ∧
    (find_free_slots events ds de).Pairwise (fun p q => p.2 ≤ q.1) :=
  ⟨fun p hp => (free_slots_pos events ds de p hp).2,
    free_slots_ordered events ds de hse⟩

/-- C10 (witness): concrete evaluation of the wellformedness theorem on two
out-of-order, overlapping busy blocks in the window `(480, 1200)`. -/
theorem free_slots_wellformed_witness :
    (((480:Int) ≤ 1200 ∧
      ∀ b ∈ busyOf [⟨some 700, some 800⟩, ⟨some 540, some 720⟩], b.1 ≤ b.2) ∧
     find_free_slots [⟨some 700, some 800⟩, ⟨some 540, some 720⟩] 480 1200 =
       [(480, 540), (800, 1200)]) ∧
    ((∀ p ∈ find_free_slots [⟨some 700, some 800⟩, ⟨some 540, some 720⟩] 480 1200,
        p.1 < p.2) ∧
     (find_free_slots [⟨some 700, some 800⟩, ⟨some 540, some 720⟩] 480 1200).Pairwise
        (fun p q => p.2 ≤ q.1)) :=
  ⟨⟨⟨by decide, by decide⟩, by decide⟩,
    free_slots_wellformed [⟨some 700, some 800⟩, ⟨some 540, some 720⟩] 480 1200
      (by decide) (by decide)⟩

/-! ### List helper lemmas for the packer -/

theorem mem_of_get? {α : Type} {l : List α} {i : Nat} {a : α}
    (h : l[i]? = some a) : a ∈ l := by
  obtain ⟨hlt, rfl⟩ := List.getElem?_eq_some.mp h
  exact List.getElem_mem hlt

theorem erase_rel {α : Type} {R : α → α → Prop} :
    ∀ (l : List α) (j : Nat) (v : α), l.Pairwise R → l[j]? = some v →
      ∀ p ∈ l.eraseIdx j, R v p ∨ R p v := by
  intro l
  induction l with
  | nil => intro j v _ h; simp at h
  | cons a tl ih =>
      intro j v hpw hget p hp
      cases j with
      | zero =>
          rw [List.getElem?_cons_zero] at hget
          injection hget with hav
          subst hav
          rw [List.eraseIdx_cons_zero] at hp
          exact Or.inl ((List.pairwise_cons.mp hpw).1 p hp)
      | succ k =>
          rw [List.getElem?_cons_succ] at hget
          rw [List.eraseIdx_cons_succ] at hp
          rcases List.mem_cons.mp hp with rfl | hp'
          · exact Or.inr ((List.pairwise_cons.mp hpw).1 v (mem_of_get? hget))
          · exact ih k v (List.pairwise_cons.mp hpw).2 hget p hp'

theorem set_rel {α : Type} {R : α → α → Prop} :
    ∀ (l : List α) (j : Nat) (v w : α), l.Pairwise R → l[j]? = some v →
      ∀ p ∈ l.set j w, p = w ∨ R v p ∨ R p v := by
  intro l
  induction l with
  | nil => intro j v w _ h; simp at h
  | cons a tl ih =>
      intro j v w hpw hget p hp
      cases j with
      | zero =>
          rw [List.getElem?_cons_zero] at hget
          injection hget with hav
          subst hav
          rw [List.set_cons_zero] at hp
          rcases List.mem_cons.mp hp with rfl | hp'
          · exact Or.inl rfl
          · exact Or.inr (Or.inl ((List.pairwise_cons.mp hpw).1 p hp'))
      | succ k =>
          rw [List.getElem?_cons_succ] at hget
          rw [List.set_cons_succ] at hp
          rcases List.mem_cons.mp hp with rfl | hp'
          · exact Or.inr (Or.inr ((List.pairwise_cons.mp hpw).1 v (mem_of_get? hget)))
          · exact ih k v w (List.pairwise_cons.mp hpw).2 hget p hp'

theorem pairwise_disj_set_sub :
    ∀ (l : List (Int × Int)) (j : Nat) (v w : Int × Int),
      l.Pairwise Disj → l[j]? = some v → Sub w v →
      (l.set j w).Pairwise Disj := by
  intro l
  induction l with
  | nil => intro j v w _ h _; simp at h
  | cons a tl ih =>
      intro j v w hpw hget hsub
      cases j with
      | zero =>
          rw [List.getElem?_cons_zero] at hget
          injection hget with hav
          subst hav
          rw [List.set_cons_zero]
          rw [List.pairwise_cons]
          exact ⟨fun x hx => sub_disj_left hsub ((List.pairwise_cons.mp hpw).1 x hx),
            (List.pairwise_cons.mp hpw).2⟩
      | succ k =>
          rw [List.getElem?_cons_succ] at hget
          rw [List.set_cons_succ]
          rw [List.pairwise_cons]
          constructor
          · intro x hx
            rcases List.mem_or_eq_of_mem_set hx with hx' | rfl
            · exact (List.pairwise_cons.mp hpw).1 x hx'
            · exact disj_sub_right
                ((List.pairwise_cons.mp hpw).1 v (mem_of_get? hget)) hsub
          · exact ih k v w (List.pairwise_cons.mp hpw).2 hget hsub

theorem pairwise_set_of_all {α : Type} {R : α → α → Prop} :
    ∀ (l : List α) (i : Nat) (a : α),
      l.Pairwise R → (∀ x ∈ l, R x a ∧ R a x) → (l.set i a).Pairwise R := by
  intro l
  induction l with
  | nil => intro i a _ _; simp [List.set]
  | cons b tl ih =>
      intro i a hpw hall
      cases i with
      | zero =>
          rw [List.set_cons_zero, List.pairwise_cons]
          exact ⟨fun x hx => (hall x (List.mem_cons_of_mem _ hx)).2,
            (List.pairwise_cons.mp hpw).2⟩
      | succ k =>
          rw [List.set_cons_succ, List.pairwise_cons]
          constructor
          · intro x hx
            rcases List.mem_or_eq_of_mem_set hx with hx' | rfl
            · exact (List.pairwise_cons.mp hpw).1 x hx'
            · exact (hall b (List.mem_cons_self _ _)).1
          · exact ih k a (List.pairwise_cons.mp hpw).2
              fun x hx => hall x (List.mem_cons_of_mem _ hx)

theorem findSlot_spec :
    ∀ (slots : List (Int × Int)) (needed : Int) (j : Nat) (s e : Int),
      findSlot slots needed = some (j, s, e) →
      slots[j]? = some (s, e) ∧ needed ≤ e - s := by
  intro slots
  induction slots with
  | nil => intro needed j s e h; simp [findSlot] at h
  | cons a rest ih =>
      intro needed j s e h
      obtain ⟨s0, e0⟩ := a
      unfold findSlot at h
      split at h
      · simp only [Option.some.injEq, Prod.mk.injEq] at h
        obtain ⟨rfl, rfl, rfl⟩ := h
        exact ⟨List.getElem?_cons_zero, by assumption⟩
      · rw [Option.map_eq_some'] at h
        obtain ⟨⟨j', s', e'⟩, hr, hf⟩ := h
        simp only [Prod.mk.injEq] at hf
        obtain ⟨rfl, rfl, rfl⟩ := hf
        have := ih needed j' s' e' hr
        exact ⟨by rw [List.getElem?_cons_succ]; exact this.1, this.2⟩

/-! ### Case characterizations of `packStep` -/

theorem packStep_none {buffer : Int} {ts : List Task} {slots : List (Int × Int)}
    {i : Nat} (h : ts[i]? = none) :
    packStep buffer (ts, slots) i = (ts, slots) := by
  simp only [packStep]
  rw [h]

theorem packStep_skip {buffer : Int} {ts : List Task} {slots : List (Int × Int)}
    {i : Nat} {t : Task} (h : ts[i]? = some t) (hs : t.scheduled = true) :
    packStep buffer (ts, slots) i = (ts, slots) := by
  simp only [packStep]
  rw [h]
  simp [hs]

theorem packStep_nofit {buffer : Int} {ts : List Task} {slots : List (Int × Int)}
    {i : Nat} {t : Task} (h : ts[i]? = some t) (hs : t.scheduled = false)
    (hf : findSlot slots (t.duration + buffer) = none) :
    packStep buffer (ts, slots) i = (ts, slots) := by
  simp only [packStep]
  rw [h]
  simp [hs, hf]

theorem packStep_fit {buffer : Int} {ts : List Task} {slots : List (Int × Int)}
    {i : Nat} {t : Task} {j : Nat} {s e : Int} (h : ts[i]? = some t)
    (hs : t.scheduled = false)
    (hf : findSlot slots (t.duration + buffer) = some (j, s, e)) :
    packStep buffer (ts, slots) i =
      (ts.set i { t with scheduled := true, start_time := some s,
                         end_time := some (s + (t.duration + buffer)) },
       if s + (t.duration + buffer) ≥ e then slots.eraseIdx j
       else slots.set j (s + (t.duration + buffer), e)) := by
  simp only [packStep]
  rw [h]
  simp [hs, hf]

/-! ### Preservation of the packing invariant -/

theorem packStep_inv (busy : List (Int × Int)) (buffer : Int) (hbuf : 0 ≤ buffer)
    (ts : List Task) (slots : List (Int × Int)) (i : Nat)
    (h : PackInv busy ts slots) :
    PackInv busy (packStep buffer (ts, slots) i).1
      (packStep buffer (ts, slots) i).2 := by
  obtain ⟨hdur, hpos, hdisjb, hpw, hsched, htpw⟩ := h
  cases hti : ts[i]? with
  | none =>
      rw [packStep_none hti]
      exact ⟨hdur, hpos, hdisjb, hpw, hsched, htpw⟩
  | some t =>
      cases hs : t.scheduled with
      | true =>
          rw [packStep_skip hti hs]
          exact ⟨hdur, hpos, hdisjb, hpw, hsched, htpw⟩
      | false =>
          cases hfs : findSlot slots (t.duration + buffer) with
          | none =>
              rw [packStep_nofit hti hs hfs]
              exact ⟨hdur, hpos, hdisjb, hpw, hsched, htpw⟩
          | some r =>
              obtain ⟨j, s, e⟩ := r
              rw [packStep_fit hti hs hfs]
              obtain ⟨hget, hwid⟩ := findSlot_spec slots _ j s e hfs
              have htmem : t ∈ ts := mem_of_get? hti
              have hne : 0 ≤ t.duration + buffer :=
                add_nonneg (hdur t htmem) hbuf
              have hsubt : Sub (s, s + (t.duration + buffer)) (s, e) :=
                sub_take (by omega)
              have hsubs : Sub (s + (t.duration + buffer), e) (s, e) :=
                sub_shrink hne
              have hvmem : (s, e) ∈ slots := mem_of_get? hget
              have hmem' : ∀ p ∈ (if s + (t.duration + buffer) ≥ e
                    then slots.eraseIdx j
                    else slots.set j (s + (t.duration + buffer), e)),
                  (p = (s + (t.duration + buffer), e) ∧
                    s + (t.duration + buffer) < e) ∨ p ∈ slots := by
                split
                · intro p hp
                  exact Or.inr (List.Sublist.mem hp (List.eraseIdx_sublist _ _))
                · rename_i hlt
                  intro p hp
                  rcases List.mem_or_eq_of_mem_set hp with h' | h'
                  · exact Or.inr h'
                  · exact Or.inl ⟨h', by omega⟩
              have htask_slots' : ∀ p ∈ (if s + (t.duration + buffer) ≥ e
                    then slots.eraseIdx j
                    else slots.set j (s + (t.duration + buffer), e)),
                  Disj (s, s + (t.duration + buffer)) p := by
                split
                · intro p hp
                  rcases erase_rel slots j (s, e) hpw hget p hp with h' | h'
                  · exact sub_disj_left hsubt h'
                  · exact sub_disj_left hsubt (disj_symm h')
                · intro p hp
                  rcases set_rel slots j (s, e) _ hpw hget p hp with rfl | h' | h'
                  · exact disj_halves s _ e
                  · exact sub_disj_left hsubt h'
                  · exact sub_disj_left hsubt (disj_symm h')
              refine ⟨?_, ?_, ?_, ?_, ?_, ?_⟩
              · intro x hx
                rcases List.mem_or_eq_of_mem_set hx with h' | rfl
                · exact hdur x h'
                · exact hdur t htmem
              · intro p hp
                rcases hmem' p hp with ⟨rfl, hlt⟩ | h'
                · exact hlt
                · exact hpos p h'
              · intro p hp b hb
                rcases hmem' p hp with ⟨rfl, _⟩ | h'
                · exact sub_disj_left hsubs (hdisjb (s, e) hvmem b hb)
                · exact hdisjb p h' b hb
              · split
                · exact List.Pairwise.sublist (List.eraseIdx_sublist _ _) hpw
                · exact pairwise_disj_set_sub slots j (s, e) _ hpw hget hsubs
              · intro x hx hxs
                rcases List.mem_or_eq_of_mem_set hx with h' | rfl
                · obtain ⟨hb', hp'⟩ := hsched x h' hxs
                  refine ⟨hb', ?_⟩
                  intro p hp
                  rcases hmem' p hp with ⟨rfl, _⟩ | h''
                  · exact disj_sub_right (hp' (s, e) hvmem) hsubs
                  · exact hp' p h''
                · constructor
                  · intro b hb
                    exact sub_disj_left hsubt (hdisjb (s, e) hvmem b hb)
                  · intro p hp
                    exact htask_slots' p hp
              · apply pairwise_set_of_all ts i _ htpw
                intro x hx
                constructor
                · intro hxs _
                  exact disj_sub_right ((hsched x hx hxs).2 (s, e) hvmem) hsubt
                · intro _ hxs
                  exact disj_symm
                    (disj_sub_right ((hsched x hx hxs).2 (s, e) hvmem) hsubt)

theorem foldl_pack_inv (busy : List (Int × Int)) (buffer : Int)
    (hbuf : 0 ≤ buffer) :
    ∀ (idxs : List Nat) (st : List Task × List (Int × Int)),
      PackInv busy st.1 st.2 →
      PackInv busy (idxs.foldl (packStep buffer) st).1
        (idxs.foldl (packStep buffer) st).2 := by
  intro idxs
  induction idxs with
  | nil => intro st h; exact h
  | cons k rest ih =>
      rintro ⟨ts, slots⟩ h
      rw [List.foldl_cons]
      exact ih (packStep buffer (ts, slots) k)
        (packStep_inv busy buffer hbuf ts slots k h)

theorem pack_inv_init (events : List Event) (ds de : Int) (tasks : List Task)
    (hdur : ∀ t ∈ tasks, 0 ≤ t.duration)
    (hsched : ∀ t ∈ tasks, t.scheduled = false)
    (hse : ∀ b ∈ busyOf events, b.1 ≤ b.2) :
    PackInv (busyOf events) tasks
      (sortSlotsDesc (find_free_slots events ds de)) := by
  have hperm : (sortSlotsDesc (find_free_slots events ds de)).Perm
      (find_free_slots events ds de) := List.perm_insertionSort _ _
  refine ⟨hdur, ?_, ?_, ?_, ?_, ?_⟩
  · intro p hp
    exact (free_slots_pos events ds de p (hperm.subset hp)).2
  · intro p hp b hb
    exact free_slots_disj_busy events ds de p (hperm.subset hp) b hb
  · have h1 : (find_free_slots events ds de).Pairwise Disj :=
      (free_slots_ordered events ds de hse).imp fun h => disj_of_le h
    exact (List.Perm.pairwise_iff (fun h => disj_symm h) hperm).mpr h1
  · intro t ht hts
    rw [hsched t ht] at hts
    cases hts
  · refine List.pairwise_iff_getElem.mpr ?_
    intro a b ha hb _ hsa _
    rw [hsched _ (List.getElem_mem ha)] at hsa
    cases hsa

theorem schedule_tasks_empty (events : List Event) (dsh deh buffer : Int)
    (tasks : List Task) (h : events.isEmpty = true) :
    schedule_tasks events dsh deh buffer tasks =
      { tasks := tasks, slots := [], warned := true } := by
  unfold schedule_tasks
  rw [if_pos h]

theorem schedule_tasks_run (events : List Event) (dsh deh buffer : Int)
    (tasks : List Task) (h : events.isEmpty = false) :
    schedule_tasks events dsh deh buffer tasks =
      { tasks := (pack tasks
            (find_free_slots events (60 * dsh) (60 * deh)) buffer).1,
        slots := (pack tasks
            (find_free_slots events (60 * dsh) (60 * deh)) buffer).2,
        warned := false } := by
  unfold schedule_tasks
  rw [if_neg (by simp [h])]

/-! ### Claim C2 -/

/-- C2 (counterexample): the invariant fails in reachable states produced by
a second packing run.  Run 1 schedules a 30-minute task at `[60, 90)` (window
0:00–2:00, busy `(50, 60)`).  The user then adds a second 30-minute task
(`add_task` appends an unscheduled record) and packs again: the free slots
are recomputed from the calendar only, so the new task is also placed at
`[60, 90)` — two scheduled tasks with overlapping reserved intervals. -/
theorem schedule_disjoint_counterexample :
    ((schedule_tasks [⟨some 50, some 60⟩] 0 2 0
        ((schedule_tasks [⟨some 50, some 60⟩] 0 2 0 [mkTask 1 30]).tasks
          ++ [mkTask 1 30])).tasks.map
        fun t => (t.scheduled, t.start_time, t.end_time))
      = [(true, some 60, some 90), (true, some 60, some 90)] ∧
    ¬ Disj (60, 90) (60, 90) :=
  ⟨by decide, fun h => h 60 (by decide)⟩

/-- C2 (amended): after a single packing run on a task list none of whose
tasks is already scheduled (with non-negative durations and buffer), the
reserved intervals of scheduled tasks are pairwise disjoint and disjoint from
every busy interval.  The claim's extension to runs performed after an
earlier run already scheduled tasks is false: a later run recomputes the free
slots from the calendar alone and can double-book them
(see the counterexample). -/
theorem schedule_disjoint_amended (events : List Event)
    (dsh deh buffer : Int) (tasks : List Task) (hbuf : 0 ≤ buffer)
    (hdur : ∀ t ∈ tasks, 0 ≤ t.duration)
    (hsched : ∀ t ∈ tasks, t.scheduled = false)
    (hse : ∀ b ∈ busyOf events, b.1 ≤ b.2) :
    (schedule_tasks events dsh deh buffer tasks).tasks.Pairwise
      (fun a b => a.scheduled = true → b.scheduled = true →
        Disj (resInt a) (resInt b)) ∧
    (∀ t ∈ (schedule_tasks events dsh deh buffer tasks).tasks,
      t.scheduled = true → ∀ b ∈ busyOf events, Disj (resInt t) b) := by
  cases hne : events.isEmpty with
  | true =>
      rw [schedule_tasks_empty events dsh deh buffer tasks hne]
      constructor
      · refine List.pairwise_iff_getElem.mpr ?_
        intro a b ha hb _ hsa _
        rw [hsched _ (List.getElem_mem ha)] at hsa
        cases hsa
      · intro t ht hts
        rw [hsched t ht] at hts
        cases hts
  | false =>
      rw [schedule_tasks_run events dsh deh buffer tasks hne]
      have hinit := pack_inv_init events (60 * dsh) (60 * deh) tasks
        hdur hsched hse
      have hinv := foldl_pack_inv (busyOf events) buffer hbuf
        (prioritizedIdx tasks)
        (tasks, sortSlotsDesc (find_free_slots events (60 * dsh) (60 * deh)))
        hinit
      exact ⟨hinv.2.2.2.2.2, fun t ht hts => (hinv.2.2.2.2.1 t ht hts).1⟩

/-- C2 (witness for the amended theorem): one busy block `(50, 60)` in the
window 0:00–2:00 and two fresh tasks; the run schedules both and the theorem
yields their disjointness. -/
theorem schedule_disjoint_witness :
    (((0:Int) ≤ 0 ∧
      (∀ t ∈ [mkTask 1 30, mkTask 2 45], 0 ≤ t.duration) ∧
      (∀ t ∈ [mkTask 1 30, mkTask 2 45], t.scheduled = false) ∧
      (∀ b ∈ busyOf [⟨some 50, some 60⟩], b.1 ≤ b.2)) ∧
     ((schedule_tasks [⟨some 50, some 60⟩] 0 2 0
        [mkTask 1 30, mkTask 2 45]).tasks.map
          fun t => (t.scheduled, t.start_time, t.end_time))
        = [(true, some 60, some 90), (true, some 0, some 45)]) ∧
    ((schedule_tasks [⟨some 50, some 60⟩] 0 2 0
        [mkTask 1 30, mkTask 2 45]).tasks.Pairwise
      (fun a b => a.scheduled = true → b.scheduled = true →
        Disj (resInt a) (resInt b)) ∧
     (∀ t ∈ (schedule_tasks [⟨some 50, some 60⟩] 0 2 0
          [mkTask 1 30, mkTask 2 45]).tasks,
        t.scheduled = true → ∀ b ∈ busyOf [⟨some 50, some 60⟩],
          Disj (resInt t) b)) :=
  ⟨⟨⟨by decide, by decide, by decide, by decide⟩, by decide⟩,
    schedule_disjoint_amended [⟨some 50, some 60⟩] 0 2 0
      [mkTask 1 30, mkTask 2 45] (by decide) (by decide) (by decide) (by decide)⟩

/-! ### Claim C3 -/

/-- C3 (counterexample): with duration 30, buffer 5 and a single 60-minute
slot `(0, 60)`, the first task reserves `[0, 35)` but the remaining slot is
only 25 minutes wide, so a second identical task needs 35 minutes, fits
nowhere, and stays unscheduled with no start time — it does not start at
`slot_start + 35` as the claim's consequence states. -/
theorem pack_buffer_counterexample :
    ((pack [mkTask 1 30, mkTask 1 30] [(0, 60)] 5).1.map
        fun t => (t.scheduled, t.start_time, t.end_time))
      = [(true, some 0, some 35), (false, none, none)] ∧
    (pack [mkTask 1 30, mkTask 1 30] [(0, 60)] 5).2 = [(35, 60)] ∧
    (none : Option Int) ≠ some 35 := by decide

/-- C3 (amended): whenever the packer schedules a task into the slot with
bounds `(s, e)` found at index `j`, it sets `start_time = s`,
`end_time = s + duration + buffer`, `scheduled = true` (so the reserved span
is `duration + buffer`), replaces slot `j` with `(s + duration + buffer, e)`
and removes it when its new width is zero.  Consequently, with duration 30
and buffer 5, the reserved span is 35 minutes; in a single 60-minute slot a
second identical task does not fit the remaining 25 minutes and stays
unscheduled, while in a 120-minute slot it starts at `slot_start + 35`, not
`slot_start + 30`. -/
theorem pack_buffer_amended :
    (∀ (buffer : Int) (ts : List Task) (slots : List (Int × Int)) (i : Nat)
        (t : Task) (j : Nat) (s e : Int),
        ts[i]? = some t → t.scheduled = false →
        findSlot slots (t.duration + buffer) = some (j, s, e) →
        packStep buffer (ts, slots) i =
          (ts.set i { t with scheduled := true, start_time := some s,
                             end_time := some (s + (t.duration + buffer)) },
           if s + (t.duration + buffer) = e then slots.eraseIdx j
           else slots.set j (s + (t.duration + buffer), e)) ∧
        slots[j]? = some (s, e) ∧ t.duration + buffer ≤ e - s ∧
        (s + (t.duration + buffer)) - s = t.duration + buffer) ∧
    (((pack [mkTask 1 30, mkTask 1 30] [(0, 60)] 5).1.map
        fun t => (t.scheduled, t.start_time, t.end_time))
      = [(true, some 0, some 35), (false, none, none)] ∧
     (pack [mkTask 1 30, mkTask 1 30] [(0, 60)] 5).2 = [(35, 60)]) ∧
    (((pack [mkTask 1 30, mkTask 1 30] [(0, 120)] 5).1.map
        fun t => (t.scheduled, t.start_time, t.end_time))
      = [(true, some 0, some 35), (true, some 35, some 70)] ∧
     (pack [mkTask 1 30, mkTask 1 30] [(0, 120)] 5).2 = [(70, 120)]) := by
  refine ⟨?_, ⟨by decide, by decide⟩, ⟨by decide, by decide⟩⟩
  intro buffer ts slots i t j s e hti hs hfs
  obtain ⟨hget, hwid⟩ := findSlot_spec slots _ j s e hfs
  refine ⟨?_, hget, hwid, by ring⟩
  rw [packStep_fit hti hs hfs]
  by_cases hc : s + (t.duration + buffer) ≥ e
  · rw [if_pos hc, if_pos (by omega)]
  · rw [if_neg hc, if_neg (by omega)]

/-- C3 (witness for the amended theorem): the first 30-minute task with
buffer 5 placed into the single slot `(0, 60)` reserves `[0, 35)` and shrinks
the slot to `(35, 60)`. -/
theorem pack_buffer_witness :
    (([mkTask 1 30] : List Task)[0]? = some (mkTask 1 30) ∧
     (mkTask 1 30).scheduled = false ∧
     findSlot [(0, 60)] ((mkTask 1 30).duration + 5) = some (0, 0, 60)) ∧
    (packStep 5 ([mkTask 1 30], [(0, 60)]) 0 =
        ([mkTask 1 30].set 0 { mkTask 1 30 with
                               scheduled := true,
                               start_time := some 0,
                               end_time := some (0 + ((mkTask 1 30).duration + 5)) },
         if 0 + ((mkTask 1 30).duration + 5) = 60 then
           ([(0, 60)] : List (Int × Int)).eraseIdx 0
         else ([(0, 60)] : List (Int × Int)).set 0
           (0 + ((mkTask 1 30).duration + 5), 60)) ∧
      ([(0, 60)] : List (Int × Int))[0]? = some (0, 60) ∧
      (mkTask 1 30).duration + 5 ≤ 60 - 0 ∧
      (0 + ((mkTask 1 30).duration + 5)) - 0 = (mkTask 1 30).duration + 5) :=
  ⟨⟨by decide, by decide, by decide⟩,
    pack_buffer_amended.1 5 [mkTask 1 30] [(0, 60)] 0 (mkTask 1 30) 0 0 60
      (by decide) (by decide) (by decide)⟩

/-! ### Claim C4 -/

/-- C4 (counterexample): a task with `completed = true` but
`scheduled = false` is not a candidate: although a fitting slot exists
(`findSlot` would place its 30 minutes in the 100-wide slot), the packing
run leaves it untouched, because `get_prioritized_tasks` filters on
`completed`, not on `scheduled`. -/
theorem pack_order_counterexample :
    (⟨"t", 1, 30, "Work", false, none, none, true⟩ : Task).scheduled = false ∧
    findSlot (sortSlotsDesc [(0, 100)])
        ((⟨"t", 1, 30, "Work", false, none, none, true⟩ : Task).duration + 0)
      = some (0, 0, 100) ∧
    (pack [⟨"t", 1, 30, "Work", false, none, none, true⟩] [(0, 100)] 0).1
      = [⟨"t", 1, 30, "Work", false, none, none, true⟩] := by decide

theorem enum_filter_completed_map :
    ∀ (l : List Task) (n : Nat),
      (((List.enumFrom n l).filter fun p => !p.2.completed).map (·.2)) =
        l.filter fun t => !t.completed := by
  intro l
  induction l with
  | nil => intro n; rfl
  | cons a tl ih =>
      intro n
      simp only [List.enumFrom, List.filter_cons]
      cases hq : a.completed <;> simp [hq, ih (n + 1)]

/-- C4 (amended): the packer's candidates are the tasks with
`completed == false` (a completed yet unscheduled task is skipped; the
`scheduled == false` filter happens separately inside the loop), iterated by
priority ascending then duration descending; on the spec's example
A(priority 1, 30min), B(priority 2, 60min), C(priority 1, 90min) with one
120-minute slot and buffer 0 the order is C, A, B: C reserves the first 90
minutes, A the next 30, and B is left unscheduled. -/
theorem pack_order_amended :
    (∀ tasks : List Task,
        (get_prioritized_tasks tasks).Perm
          (tasks.filter fun t => !t.completed) ∧
        (get_prioritized_tasks tasks).Pairwise (fun a b =>
          a.priority < b.priority ∨
            (a.priority = b.priority ∧ b.duration ≤ a.duration))) ∧
    get_prioritized_tasks [mkTask 1 30, mkTask 2 60, mkTask 1 90]
      = [mkTask 1 90, mkTask 1 30, mkTask 2 60] ∧
    ((pack [mkTask 1 30, mkTask 2 60, mkTask 1 90] [(0, 120)] 0).1.map
        fun t => (t.scheduled, t.start_time, t.end_time))
      = [(true, some 90, some 120), (false, none, none),
         (true, some 0, some 90)] := by
  refine ⟨?_, by decide, by decide⟩
  intro tasks
  constructor
  · have h1 := List.perm_insertionSort taskLE
      (tasks.enum.filter fun p => !p.2.completed)
    have h2 := h1.map (·.2)
    unfold get_prioritized_tasks
    have h3 : ((tasks.enum.filter fun p => !p.2.completed).map (·.2)) =
        tasks.filter fun t => !t.completed := by
      simpa [List.enum] using enum_filter_completed_map tasks 0
    rw [h3] at h2
    exact h2
  · have hs := List.sorted_insertionSort taskLE
      (tasks.enum.filter fun p => !p.2.completed)
    unfold get_prioritized_tasks
    rw [List.pairwise_map]
    exact hs.imp fun h => by unfold taskLE at h; exact h

/-! ### Claim C5 -/

/-- C5 (counterexample): with a 100-minute task iterated before a 10-minute
task, free slots of widths 90 and 20 and buffer 0, the packer scans slots
widest-first, so the small task is placed at the start of the 90-wide slot
(start 0), not in the 20-wide slot (start 100), and it is the 90-wide slot
that shrinks while the 20-wide slot stays untouched. -/
theorem pack_greedy_counterexample :
    ((pack [mkTask 1 100, mkTask 2 10] [(0, 90), (100, 120)] 0).1.map
        fun t => (t.scheduled, t.start_time, t.end_time))
      = [(false, none, none), (true, some 0, some 10)] ∧
    (pack [mkTask 1 100, mkTask 2 10] [(0, 90), (100, 120)] 0).2
      = [(10, 90), (100, 120)] ∧
    some (0 : Int) ≠ some 100 := by decide

/-- C5 (amended): on that input the packer leaves the large task
unscheduled, schedules the small task into the 90-wide slot — the first slot
of the width-descending scan — shrinking it to `(10, 90)`, and leaves the
20-wide slot `(100, 120)` untouched. -/
theorem pack_greedy_amended :
    ((pack [mkTask 1 100, mkTask 2 10] [(0, 90), (100, 120)] 0).1.map
        fun t => (t.scheduled, t.start_time, t.end_time))
      = [(false, none, none), (true, some 0, some 10)] ∧
    (pack [mkTask 1 100, mkTask 2 10] [(0, 90), (100, 120)] 0).2
      = [(10, 90), (100, 120)] := by decide

/-! ### Claim C6 -/

theorem packStep_nil_slots (buffer : Int) (ts : List Task) (i : Nat) :
    packStep buffer (ts, []) i = (ts, []) := by
  cases hti : ts[i]? with
  | none => exact packStep_none hti
  | some t =>
      cases hs : t.scheduled with
      | true => exact packStep_skip hti hs
      | false => exact packStep_nofit hti hs rfl

theorem foldl_pack_nil (buffer : Int) :
    ∀ (idxs : List Nat) (ts : List Task),
      idxs.foldl (packStep buffer) (ts, []) = (ts, []) := by
  intro idxs
  induction idxs with
  | nil => intro ts; rfl
  | cons k rest ih =>
      intro ts
      rw [List.foldl_cons, packStep_nil_slots buffer ts k]
      exact ih ts

theorem pack_nil_slots (tasks : List Task) (buffer : Int) :
    pack tasks [] buffer = (tasks, []) := by
  unfold pack
  exact foldl_pack_nil buffer (prioritizedIdx tasks) tasks

/-- C6 (counterexample): with a calendar event covering the whole window the
free-slot list is empty, and the run indeed leaves the tasks unchanged — but
no distinguishable condition is reported: the warning branch fires only for
an empty calendar-event list, so `warned = false` here and the run passes
silently. -/
theorem pack_empty_counterexample :
    find_free_slots [⟨some 0, some 200⟩] 0 120 = [] ∧
    (schedule_tasks [⟨some 0, some 200⟩] 0 2 0 [mkTask 1 30]).warned = false ∧
    (schedule_tasks [⟨some 0, some 200⟩] 0 2 0 [mkTask 1 30]).tasks
      = [mkTask 1 30] := by decide

/-- C6 (amended): when packing runs with an empty free-slot list, no task is
scheduled and every task is left unchanged, but the condition is not
reported: the only warning (early return) is issued exactly when the
calendar-event list itself is empty, not when the computed free slots are
empty. -/
theorem pack_empty_amended :
    (∀ (events : List Event) (dsh deh buffer : Int) (tasks : List Task),
        find_free_slots events (60 * dsh) (60 * deh) = [] →
        (schedule_tasks events dsh deh buffer tasks).tasks = tasks) ∧
    (∀ (events : List Event) (dsh deh buffer : Int) (tasks : List Task),
        ((schedule_tasks events dsh deh buffer tasks).warned = true ↔
          events = [])) := by
  constructor
  · intro events dsh deh buffer tasks hfree
    cases hne : events.isEmpty with
    | true => rw [schedule_tasks_empty events dsh deh buffer tasks hne]
    | false =>
        rw [schedule_tasks_run events dsh deh buffer tasks hne, hfree,
          pack_nil_slots]
  · intro events dsh deh buffer tasks
    cases hne : events.isEmpty with
    | true =>
        rw [schedule_tasks_empty events dsh deh buffer tasks hne]
        simpa using List.isEmpty_iff.mp hne
    | false =>
        rw [schedule_tasks_run events dsh deh buffer tasks hne]
        constructor
        · intro h; cases h
        · intro h
          rw [h] at hne
          cases hne

/-- C6 (witness for the amended theorem): the whole-window busy block again;
the run returns the task list unchanged. -/
theorem pack_empty_witness :
    (find_free_slots [⟨some 0, some 200⟩] (60 * 0) (60 * 2) = []) ∧
    (schedule_tasks [⟨some 0, some 200⟩] 0 2 0 [mkTask 1 30]).tasks
      = [mkTask 1 30] :=
  ⟨by decide,
    pack_empty_amended.1 [⟨some 0, some 200⟩] 0 2 0 [mkTask 1 30] (by decide)⟩

/-! ### Claim C7 -/

theorem prioritizedIdx_not_completed (tasks : List Task) :
    ∀ k ∈ prioritizedIdx tasks,
      ∃ u, tasks[k]? = some u ∧ u.completed = false := by
  intro k hk
  unfold prioritizedIdx at hk
  rw [List.mem_map] at hk
  obtain ⟨p, hp, rfl⟩ := hk
  have hp' : p ∈ (tasks.enum.filter fun q => !q.2.completed) :=
    (List.perm_insertionSort _ _).subset hp
  rw [List.mem_filter] at hp'
  obtain ⟨hpe, hpc⟩ := hp'
  obtain ⟨i, a⟩ := p
  have hm := List.mem_enum hpe
  refine ⟨a, ?_, ?_⟩
  · rw [List.getElem?_eq_some]
    exact ⟨hm.1, hm.2.symm⟩
  · simpa using hpc

theorem foldl_pack_preserves (buffer : Int) (tasks0 : List Task) :
    ∀ (idxs : List Nat) (st : List Task × List (Int × Int)),
      (∀ (i : Nat) (t : Task), tasks0[i]? = some t → t.scheduled = true →
        st.1[i]? = some t) →
      ∀ (i : Nat) (t : Task), tasks0[i]? = some t → t.scheduled = true →
        ((idxs.foldl (packStep buffer) st).1)[i]? = some t := by
  intro idxs
  induction idxs with
  | nil => intro st h; exact h
  | cons k rest ih =>
      rintro ⟨ts, slots⟩ h
      rw [List.foldl_cons]
      apply ih
      intro i t hti hts
      cases htk : ts[k]? with
      | none => rw [packStep_none htk]; exact h i t hti hts
      | some u =>
          cases hs : u.scheduled with
          | true => rw [packStep_skip htk hs]; exact h i t hti hts
          | false =>
              cases hfs : findSlot slots (u.duration + buffer) with
              | none => rw [packStep_nofit htk hs hfs]; exact h i t hti hts
              | some r =>
                  obtain ⟨j, s, e⟩ := r
                  rw [packStep_fit htk hs hfs]
                  by_cases hik : i = k
                  · subst hik
                    have := h i t hti hts
                    rw [htk] at this
                    injection this with hut
                    rw [hut] at hs
                    rw [hts] at hs
                    cases hs
                  · simp only
                    rw [List.getElem?_set_ne (fun hh => hik hh.symm)]
                    exact h i t hti hts

theorem foldl_pack_skip_all (buffer : Int) (tasks : List Task)
    (slots : List (Int × Int))
    (hall : ∀ t ∈ tasks, t.completed = false → t.scheduled = true) :
    ∀ idxs : List Nat,
      (∀ k ∈ idxs, ∃ u, tasks[k]? = some u ∧ u.completed = false) →
      idxs.foldl (packStep buffer) (tasks, slots) = (tasks, slots) := by
  intro idxs
  induction idxs with
  | nil => intro _; rfl
  | cons k rest ih =>
      intro hidx
      obtain ⟨u, hku, huc⟩ := hidx k (List.mem_cons_self _ _)
      have hus : u.scheduled = true := hall u (mem_of_get? hku) huc
      rw [List.foldl_cons, packStep_skip hku hus]
      exact ih fun j hj => hidx j (List.mem_cons_of_mem _ hj)

/-- C7: packing is idempotent on scheduled tasks.  First, within any single
run a task already marked `scheduled` is never modified (its record survives
untouched at its index).  Second, running the packer when every candidate
(non-completed) task is already scheduled is a no-op: the task list is
returned unchanged (and the slot list is merely the width-sorted input). -/
theorem pack_idempotent :
    (∀ (tasks : List Task) (slots : List (Int × Int)) (buffer : Int)
        (i : Nat) (t : Task), tasks[i]? = some t → t.scheduled = true →
        ((pack tasks slots buffer).1)[i]? = some t) ∧
    (∀ (tasks : List Task) (slots : List (Int × Int)) (buffer : Int),
        (∀ t ∈ tasks, t.completed = false → t.scheduled = true) →
        pack tasks slots buffer = (tasks, sortSlotsDesc slots)) := by
  constructor
  · intro tasks slots buffer i t hti hts
    unfold pack
    exact foldl_pack_preserves buffer tasks (prioritizedIdx tasks)
      (tasks, sortSlotsDesc slots) (fun _ _ h _ => h) i t hti hts
  · intro tasks slots buffer hall
    unfold pack
    exact foldl_pack_skip_all buffer tasks (sortSlotsDesc slots) hall
      (prioritizedIdx tasks) (prioritizedIdx_not_completed tasks)

/-- C7 (witness): a single already-scheduled task with a wide-open slot;
the packer leaves its record untouched and the run is a no-op. -/
theorem pack_idempotent_witness :
    (([⟨"t", 1, 30, "Work", true, some 0, some 30, false⟩] : List Task)[0]?
        = some ⟨"t", 1, 30, "Work", true, some 0, some 30, false⟩ ∧
     (⟨"t", 1, 30, "Work", true, some 0, some 30, false⟩ : Task).scheduled
        = true ∧
     (∀ t ∈ ([⟨"t", 1, 30, "Work", true, some 0, some 30, false⟩] : List Task),
        t.completed = false → t.scheduled = true)) ∧
    ((pack [⟨"t", 1, 30, "Work", true, some 0, some 30, false⟩]
        [(40, 100)] 5).1)[0]?
      = some ⟨"t", 1, 30, "Work", true, some 0, some 30, false⟩ ∧
    pack [⟨"t", 1, 30, "Work", true, some 0, some 30, false⟩] [(40, 100)] 5
      = ([⟨"t", 1, 30, "Work", true, some 0, some 30, false⟩],
          sortSlotsDesc [(40, 100)]) :=
  ⟨⟨by decide, by decide, by decide⟩,
    pack_idempotent.1 [⟨"t", 1, 30, "Work", true, some 0, some 30, false⟩]
      [(40, 100)] 5 0 _ (by decide) (by decide),
    pack_idempotent.2 [⟨"t", 1, 30, "Work", true, some 0, some 30, false⟩]
      [(40, 100)] 5 (by decide)⟩

/-! ### Claim C8 -/

/-- C8: toggling a task's completion changes only its `completed` field: the
list keeps its length, every other task is untouched, and the toggled task
keeps its `title`, `priority`, `duration`, `category`, `scheduled`,
`start_time` and `end_time`, while `completed` is negated — in particular
toggling never un-schedules a task. -/
theorem toggle_frame (tasks : List Task) (i : Nat) (h : i < tasks.length) :
    (toggle_task_completion tasks i).length = tasks.length ∧
    (∀ j : Nat, j ≠ i → (toggle_task_completion tasks i)[j]? = tasks[j]?) ∧
    ((toggle_task_completion tasks i)[i]?.map Task.title
        = (tasks[i]?).map Task.title ∧
     (toggle_task_completion tasks i)[i]?.map Task.priority
        = (tasks[i]?).map Task.priority ∧
     (toggle_task_completion tasks i)[i]?.map Task.duration
        = (tasks[i]?).map Task.duration ∧
     (toggle_task_completion tasks i)[i]?.map Task.category
        = (tasks[i]?).map Task.category ∧
     (toggle_task_completion tasks i)[i]?.map Task.scheduled
        = (tasks[i]?).map Task.scheduled ∧
     (toggle_task_completion tasks i)[i]?.map Task.start_time
        = (tasks[i]?).map Task.start_time ∧
     (toggle_task_completion tasks i)[i]?.map Task.end_time
        = (tasks[i]?).map Task.end_time) ∧
    (toggle_task_completion tasks i)[i]?.map Task.completed
      = (tasks[i]?).map fun t => !t.completed := by
  have hti : tasks[i]? = some tasks[i] := List.getElem?_eq_getElem h
  unfold toggle_task_completion
  rw [hti]
  have hset : (tasks.set i { tasks[i] with
      completed := !tasks[i].completed })[i]? =
      some { tasks[i] with completed := !tasks[i].completed } :=
    List.getElem?_set_self (by simpa using h)
  refine ⟨List.length_set _ _ _, ?_, ?_, ?_⟩
  · intro j hj
    exact List.getElem?_set_ne fun hh => hj hh.symm
  · rw [hset]
    exact ⟨rfl, rfl, rfl, rfl, rfl, rfl, rfl⟩
  · rw [hset]
    rfl

/-- C8 (witness): toggling the second of two tasks. -/
theorem toggle_frame_witness :
    ((1 : Nat) < ([mkTask 1 30, mkTask 2 40] : List Task).length) ∧
    ((toggle_task_completion [mkTask 1 30, mkTask 2 40] 1).length
        = ([mkTask 1 30, mkTask 2 40] : List Task).length ∧
     (∀ j : Nat, j ≠ 1 →
        (toggle_task_completion [mkTask 1 30, mkTask 2 40] 1)[j]?
          = ([mkTask 1 30, mkTask 2 40] : List Task)[j]?) ∧
     ((toggle_task_completion [mkTask 1 30, mkTask 2 40] 1)[1]?.map Task.title
        = (([mkTask 1 30, mkTask 2 40] : List Task)[1]?).map Task.title ∧
      (toggle_task_completion [mkTask 1 30, mkTask 2 40] 1)[1]?.map Task.priority
        = (([mkTask 1 30, mkTask 2 40] : List Task)[1]?).map Task.priority ∧
      (toggle_task_completion [mkTask 1 30, mkTask 2 40] 1)[1]?.map Task.duration
        = (([mkTask 1 30, mkTask 2 40] : List Task)[1]?).map Task.duration ∧
      (toggle_task_completion [mkTask 1 30, mkTask 2 40] 1)[1]?.map Task.category
        = (([mkTask 1 30, mkTask 2 40] : List Task)[1]?).map Task.category ∧
      (toggle_task_completion [mkTask 1 30, mkTask 2 40] 1)[1]?.map Task.scheduled
        = (([mkTask 1 30, mkTask 2 40] : List Task)[1]?).map Task.scheduled ∧
      (toggle_task_completion [mkTask 1 30, mkTask 2 40] 1)[1]?.map Task.start_time
        = (([mkTask 1 30, mkTask 2 40] : List Task)[1]?).map Task.start_time ∧
      (toggle_task_completion [mkTask 1 30, mkTask 2 40] 1)[1]?.map Task.end_time
        = (([mkTask 1 30, mkTask 2 40] : List Task)[1]?).map Task.end_time) ∧
     (toggle_task_completion [mkTask 1 30, mkTask 2 40] 1)[1]?.map Task.completed
        = (([mkTask 1 30, mkTask 2 40] : List Task)[1]?).map fun t => !t.completed) :=
  ⟨by decide, toggle_frame [mkTask 1 30, mkTask 2 40] 1 (by decide)⟩

end TimeCoach
